import Mathlib

/-!
Shallow embedding of the decode pipeline of the qr-reader repository.
The embedded functions follow `detector/decodeCore.ts`, `detector/worker.ts`,
`detector/frame.ts`, `detector/preprocess.ts` and `detector/index.ts`.
Pixel coordinates and image-space arithmetic are modelled with rationals
(JavaScript numbers on the values the pipeline handles), pixel channel
values with naturals.
-/

namespace QrReader

/-- A 2D coordinate in pixel units (`detector/types.ts`, `Point`). -/
structure Point where
  x : ℚ
  y : ℚ
deriving DecidableEq

/-- Axis-aligned box `(x, y, width, height)` (`detector/types.ts`, `BoundingBox`). -/
structure BoundingBox where
  x : ℚ
  y : ℚ
  width : ℚ
  height : ℚ
deriving DecidableEq

/-- The closed symbology enumeration (`detector/types.ts`, `BarcodeFormat`). -/
inductive BarcodeFormat where
  | qr_code
  | code_128
  | code_39
  | ean_13
  | ean_8
  | upc_a
  | upc_e
  | itf
  | pdf417
  | data_matrix
deriving DecidableEq

/-- The output entity (`detector/types.ts`, `DetectedBarcode`). -/
structure DetectedBarcode where
  rawValue : String
  format : BarcodeFormat
  cornerPoints : List Point
  boundingBox : BoundingBox
deriving DecidableEq

/-- Intersection-over-Union of two bounding boxes (`decodeCore.ts`, `iou`):
intersection area over union area, `0` when the union is not positive. -/
def iou (a b : BoundingBox) : ℚ :=
  let ax2 := a.x + a.width
  let ay2 := a.y + a.height
  let bx2 := b.x + b.width
  let by2 := b.y + b.height
  let ix := max 0 (min ax2 bx2 - max a.x b.x)
  let iy := max 0 (min ay2 by2 - max a.y b.y)
  let inter := ix * iy
  let union := a.width * a.height + b.width * b.height - inter
  if union > 0 then inter / union else 0

/-- Bounding-box area `width * height`, as computed inline by `dedupe`. -/
def area (b : BoundingBox) : ℚ := b.width * b.height

/-- The duplicate predicate used by `dedupe` (`decodeCore.ts`):
`o.rawValue === it.rawValue && iou(o.boundingBox, it.boundingBox) > 0.3`. -/
def isDup (o it : DetectedBarcode) : Bool :=
  o.rawValue == it.rawValue && decide (iou o.boundingBox it.boundingBox > 3/10)

/-- One `dedupe` step: find the first element of the accumulator that is a
duplicate of `it` (JS `findIndex`) and, when found, replace it with `it`
exactly when `it` has the strictly larger bounding-box area
(JS `if (areaB > areaA) out[dupIdx] = it`); `none` when no duplicate exists. -/
def mergeInto (it : DetectedBarcode) : List DetectedBarcode → Option (List DetectedBarcode)
  | [] => none
  | o :: rest =>
    if isDup o it then
      some (if area it.boundingBox > area o.boundingBox then it :: rest else o :: rest)
    else
      (mergeInto it rest).map (o :: ·)

/-- The accumulator loop of `dedupe` (`decodeCore.ts`): `out` is the list of
detections kept so far, items are processed in order. -/
def dedupeGo : List DetectedBarcode → List DetectedBarcode → List DetectedBarcode
  | out, [] => out
  | out, it :: rest =>
    match mergeInto it out with
    | some out2 => dedupeGo out2 rest
    | none => dedupeGo (out ++ [it]) rest

/-- Result fusion (`decodeCore.ts`, `dedupe`): merge duplicates by value and
IoU threshold, larger box winning. -/
def dedupe (items : List DetectedBarcode) : List DetectedBarcode :=
  dedupeGo [] items

/-- Window dimension (`decodeCore.ts`, `gridScanWithJsqr`):
`max(32, Math.floor(dimension * windowRatio))`. -/
def winDim (dim : ℕ) (ratio : ℚ) : ℤ := max 32 ⌊(dim : ℚ) * ratio⌋

/-- Stride (`decodeCore.ts`, `gridScanWithJsqr`):
`max(16, Math.floor(winDim * (1 - overlap)))`. -/
def strideDim (win : ℤ) (overlap : ℚ) : ℤ := max 16 ⌊(win : ℚ) * (1 - overlap)⌋

/-- One axis of the tile loop `for (v = 0; v <= limit; v += step)`, realized
with an explicit iteration bound so that it stays kernel-computable.  The
bound used by `scanAxis` is sufficient whenever `0 < step`
(`scanAxisF_mem`). -/
def scanAxisF (step limit : ℤ) : ℕ → ℤ → List ℤ
  | 0, _ => []
  | fuel + 1, v => if v ≤ limit then v :: scanAxisF step limit fuel (v + step) else []

/-- The values visited by `for (v = 0; v <= limit; v += step)`. -/
def scanAxis (step limit : ℤ) : List ℤ :=
  scanAxisF step limit ((limit + 1).toNat + 1) 0

/-- The four corner points of a fast-path (jsQR) hit, in the order `tryJsqr`
lists them: top-left, top-right, bottom-right, bottom-left. -/
structure Corners where
  topLeft : Point
  topRight : Point
  bottomRight : Point
  bottomLeft : Point
deriving DecidableEq

/-- The corner list in `tryJsqr` order. -/
def Corners.toList (c : Corners) : List Point :=
  [c.topLeft, c.topRight, c.bottomRight, c.bottomLeft]

/-- Build a detection from a raw value and four corner points
(`decodeCore.ts`, `mkResult`): bounding box is the min/max envelope of the
corners, format is always `qr_code`. -/
def mkResult (rawValue : String) (cps : Corners) : DetectedBarcode :=
  let minX := min (min cps.topLeft.x cps.topRight.x) (min cps.bottomRight.x cps.bottomLeft.x)
  let minY := min (min cps.topLeft.y cps.topRight.y) (min cps.bottomRight.y cps.bottomLeft.y)
  let maxX := max (max cps.topLeft.x cps.topRight.x) (max cps.bottomRight.x cps.bottomLeft.x)
  let maxY := max (max cps.topLeft.y cps.topRight.y) (max cps.bottomRight.y cps.bottomLeft.y)
  { rawValue := rawValue, format := .qr_code, cornerPoints := cps.toList,
    boundingBox := ⟨minX, minY, maxX - minX, maxY - minY⟩ }

/-- Translate four corners by a tile origin (`decodeCore.ts`,
`gridScanWithJsqr`: `{ x: p.x + x, y: p.y + y }`). -/
def Corners.translate (c : Corners) (dx dy : ℤ) : Corners :=
  ⟨⟨c.topLeft.x + dx, c.topLeft.y + dy⟩, ⟨c.topRight.x + dx, c.topRight.y + dy⟩,
   ⟨c.bottomRight.x + dx, c.bottomRight.y + dy⟩, ⟨c.bottomLeft.x + dx, c.bottomLeft.y + dy⟩⟩

/-- The tile origins `(x, y)` visited by the grid scan, in loop order
(`y` in the outer loop, `x` in the inner loop). -/
def tileOrigins (W H : ℕ) (overlap windowRatio : ℚ) : List (ℤ × ℤ) :=
  let winW := winDim W windowRatio
  let winH := winDim H windowRatio
  let stepX := strideDim winW overlap
  let stepY := strideDim winH overlap
  (scanAxis stepY ((H : ℤ) - winH)).flatMap fun y =>
    (scanAxis stepX ((W : ℤ) - winW)).map fun x => (x, y)

/-- The translated detection produced at one tile origin, when the fast-path
detector — `tryJsqr` applied to the tile cropped at that origin, abstracted
here by `det` — finds a hit there. -/
def tileHit (det : ℤ → ℤ → Option (String × Corners)) (xy : ℤ × ℤ) :
    Option DetectedBarcode :=
  match det xy.1 xy.2 with
  | none => none
  | some (raw, cps) => some (mkResult raw (cps.translate xy.1 xy.2))

/-- The accumulator loop of `gridScanWithJsqr`: `out` collects results and
`seen` the raw values already emitted within this pass. -/
def gridScanLoop (det : ℤ → ℤ → Option (String × Corners)) :
    List (ℤ × ℤ) → List DetectedBarcode → List String → List DetectedBarcode
  | [], out, _ => out
  | xy :: rest, out, seen =>
    match tileHit det xy with
    | none => gridScanLoop det rest out seen
    | some mapped =>
      if mapped.rawValue ∈ seen then gridScanLoop det rest out seen
      else gridScanLoop det rest (out ++ [mapped]) (mapped.rawValue :: seen)

/-- `gridScanWithJsqr` (`decodeCore.ts`): slide a window over the `W × H`
grid, run the fast-path detector per tile, translate hits by the tile
origin, and keep the first hit per raw value. -/
def gridScanWithJsqr (W H : ℕ) (overlap windowRatio : ℚ)
    (det : ℤ → ℤ → Option (String × Corners)) : List DetectedBarcode :=
  gridScanLoop det (tileOrigins W H overlap windowRatio) [] []

/-- Keep the first detection per raw value, skipping values in `seen`. -/
def keepFirstByValue (seen : List String) : List DetectedBarcode → List DetectedBarcode
  | [] => []
  | d :: rest =>
    if d.rawValue ∈ seen then keepFirstByValue seen rest
    else d :: keepFirstByValue (d.rawValue :: seen) rest

/-- The full-frame fast-path passes of `decodeMultiFormat`: the plain
`tryJsqr` hit if any, else the `tryJsqr` hit on the enhanced frame. -/
def jsqrResults (jsqrFull jsqrEnhanced : Option (String × Corners)) :
    List DetectedBarcode :=
  match jsqrFull with
  | some (raw, cps) => [mkResult raw cps]
  | none =>
    match jsqrEnhanced with
    | some (raw, cps) => [mkResult raw cps]
    | none => []

/-- The fast-path results of `decodeMultiFormat` before fusion: full-frame
hits plus the grid-scan extras whose raw value was not already found. -/
def baseResults (W H : ℕ) (jsqrFull jsqrEnhanced : Option (String × Corners))
    (gridDet : ℤ → ℤ → Option (String × Corners)) : List DetectedBarcode :=
  jsqrResults jsqrFull jsqrEnhanced ++
    (gridScanWithJsqr W H (1/2) (3/5) gridDet).filter
      (fun x => !((jsqrResults jsqrFull jsqrEnhanced).map
        DetectedBarcode.rawValue).contains x.rawValue)

/-- The ZXing-for-QR merge step of `decodeMultiFormat`: on success merge and
re-fuse when non-empty, on failure (`try`/`catch`) keep the jsQR results. -/
def mergeZxingQR (dedupedQR : List DetectedBarcode)
    (z : Except String (List DetectedBarcode)) : List DetectedBarcode :=
  match z with
  | .ok zxingQR => if zxingQR.isEmpty then dedupedQR else dedupe (dedupedQR ++ zxingQR)
  | .error _ => dedupedQR

/-- `decodeMultiFormat` (`decodeCore.ts`): the full multi-pass decode.  The
external engines are abstracted by oracles: `jsqrFull` is the full-frame
`tryJsqr` result, `jsqrEnhanced` the `tryJsqr` result on the enhanced frame
(`enhanceForQR`), `gridDet` the per-tile `tryJsqr` oracle of the grid scan,
and `zxing` the `decodeWithZxing` pass, which can fail (`Except.error`): the
QR invocation sits in a `try`/`catch` that ignores the failure, while a
failure of the non-QR invocation propagates. -/
def decodeMultiFormat (W H : ℕ)
    (jsqrFull jsqrEnhanced : Option (String × Corners))
    (gridDet : ℤ → ℤ → Option (String × Corners))
    (zxing : List BarcodeFormat → Except String (List DetectedBarcode))
    (formats : List BarcodeFormat) : Except String (List DetectedBarcode) :=
  let wantQR := formats.isEmpty || formats.contains .qr_code
  if wantQR then
    let dedupedQR := mergeZxingQR (dedupe (baseResults W H jsqrFull jsqrEnhanced gridDet))
      (zxing [.qr_code])
    let otherFormats := formats.filter (fun f => f ≠ .qr_code)
    if otherFormats.isEmpty then .ok dedupedQR
    else (zxing otherFormats).map fun zxingOut => dedupe (dedupedQR ++ zxingOut)
  else
    zxing formats

/-- A raw pixel grid (`ImageData`): interleaved RGBA channel bytes. -/
structure ImageDataModel where
  width : ℕ
  height : ℕ
  data : List ℕ
deriving DecidableEq

/-- The source shapes accepted by `MyBarcodeDetector.detect`
(`detector/index.ts`).  The element/bitmap/blob shapes require browser
canvas rasterization and are outside the embedding; the raw pixel-grid
branch is the one the claims concern. -/
inductive DetectSource where
  | imageData (img : ImageDataModel)
deriving DecidableEq

/-- `toImageData` (`frame.ts`) on the raw pixel-grid branch:
`if (src instanceof ImageData) return { imageData: src, scale: 1 }`. -/
def toImageData : DetectSource → ImageDataModel × ℚ
  | .imageData src => (src, 1)

/-- The per-detection coordinate rescale of `MyBarcodeDetector.detect`
(`detector/index.ts`): every bounding-box field and every corner coordinate
divided by `scale`, other fields spread unchanged. -/
def rescaleDetection (scale : ℚ) (r : DetectedBarcode) : DetectedBarcode :=
  { r with
    boundingBox := ⟨r.boundingBox.x / scale, r.boundingBox.y / scale,
      r.boundingBox.width / scale, r.boundingBox.height / scale⟩,
    cornerPoints := r.cornerPoints.map fun p => ⟨p.x / scale, p.y / scale⟩ }

/-- `MyBarcodeDetector.detect` (`detector/index.ts`): normalize the source,
run the worker decode (abstracted by `worker`), rescale each result once at
the API boundary. -/
def detect (worker : ImageDataModel → List BarcodeFormat → List DetectedBarcode)
    (formats : List BarcodeFormat) (source : DetectSource) : List DetectedBarcode :=
  let norm := toImageData source
  (worker norm.1 formats).map (rescaleDetection norm.2)

/-- The execution-context capabilities probed by the worker façade
(`worker.ts`): `'Worker' in globalThis` and `typeof window !== 'undefined'`. -/
structure ExecutionContext where
  hasWorker : Bool
  hasWindow : Bool
deriving DecidableEq

/-- What `detectInWorker` decides to do with a request. -/
inductive WorkerDispatch where
  | immediate (result : List DetectedBarcode)
  | mainThreadDecode
  | workerDispatch
deriving DecidableEq

/-- The dispatch decision of `detectInWorker` (`worker.ts`): without `Worker`
support, SSR contexts (no `window`) resolve immediately with an empty result;
interactive contexts decode on the main thread; otherwise the request goes to
the worker pool. -/
def detectInWorker (ctx : ExecutionContext) (img : ImageDataModel)
    (formats : List BarcodeFormat) : WorkerDispatch :=
  if !ctx.hasWorker then
    if !ctx.hasWindow then .immediate []
    else .mainThreadDecode
  else .workerDispatch

/-- JavaScript `Math.round`: half-up rounding, `⌊q + 1/2⌋`. -/
def jsRound (q : ℚ) : ℤ := ⌊q + 1/2⌋

/-- A region-of-interest rectangle as accepted by `cropImageData`
(`frame.ts`), absolute or normalized to `[0,1]`. -/
structure RoiRect where
  x : ℚ
  y : ℚ
  width : ℚ
  height : ℚ
  normalized : Bool
deriving DecidableEq

/-- The clamped integer crop rectangle. -/
structure CropRect where
  x : ℤ
  y : ℤ
  width : ℤ
  height : ℤ
deriving DecidableEq

/-- The ROI clamping of `cropImageData` (`frame.ts`): normalized rectangles
are scaled by the grid size and rounded (`Math.round`), then the origin is
clamped into the grid (`max(0, min(dim - 1, floor(v)))`) and the size to at
least one and at most the remaining extent
(`max(1, min(dim - origin, floor(v)))`). -/
def cropRect (W H : ℕ) (roi : RoiRect) : CropRect :=
  let rx : ℚ := if roi.normalized then (jsRound (roi.x * W) : ℚ) else roi.x
  let ry : ℚ := if roi.normalized then (jsRound (roi.y * H) : ℚ) else roi.y
  let rw : ℚ := if roi.normalized then (jsRound (roi.width * W) : ℚ) else roi.width
  let rh : ℚ := if roi.normalized then (jsRound (roi.height * H) : ℚ) else roi.height
  let x := max 0 (min ((W : ℤ) - 1) ⌊rx⌋)
  let y := max 0 (min ((H : ℤ) - 1) ⌊ry⌋)
  let w := max 1 (min ((W : ℤ) - x) ⌊rw⌋)
  let h := max 1 (min ((H : ℤ) - y) ⌊rh⌋)
  ⟨x, y, w, h⟩

/-- The row-copy of `cropImageData` (`frame.ts`): the destination holds, for
each row, the `width * 4` source bytes starting at
`(y + row) * srcWidth * 4 + x * 4`; reads are total here (`getD`), and
`cropImageData_safe` shows every read index is in bounds. -/
def cropImageData (src : ImageDataModel) (roi : RoiRect) : ImageDataModel :=
  let r := cropRect src.width src.height roi
  { width := r.width.toNat, height := r.height.toNat,
    data := (List.range r.height.toNat).flatMap fun row =>
      (List.range (r.width.toNat * 4)).map fun k =>
        src.data.getD (((r.y.toNat + row) * src.width + r.x.toNat) * 4 + k) 0 }

/-- Clamp a parameter into `[-1, 1]` (`preprocess.ts`:
`Math.max(-1, Math.min(1, v))`). -/
def clampUnit (q : ℚ) : ℚ := max (-1) (min 1 q)

/-- `clamp` (`preprocess.ts`): `v < 0 ? 0 : v > 255 ? 255 : v | 0`.  The
bitwise `v | 0` truncates toward zero, which on the remaining branch
(`0 ≤ v ≤ 255`) is `⌊v⌋`. -/
def clampByte (v : ℚ) : ℕ := if v < 0 then 0 else if v > 255 then 255 else ⌊v⌋.toNat

/-- One channel of `applyBrightnessContrast` (`preprocess.ts`):
`b = clamp(brightness) * 255`, `c = clamp(contrast)`,
`k = 259(c+1) / (255(1−c))`, output `clamp(k * (p + b - 128) + 128)`. -/
def applyBrightnessContrast (p : ℕ) (brightness contrast : ℚ) : ℕ :=
  let b := clampUnit brightness * 255
  let c := clampUnit contrast
  let k := 259 * (c + 1) / (255 * (1 - c))
  clampByte (k * ((p : ℚ) + b - 128) + 128)

/-- The per-RGBA-group loop of `applyBrightnessContrast` (`for i += 4`):
the three color channels are remapped, the alpha channel is untouched. -/
def applyBrightnessContrastData (brightness contrast : ℚ) : List ℕ → List ℕ
  | r :: g :: b :: a :: rest =>
    applyBrightnessContrast r brightness contrast ::
      applyBrightnessContrast g brightness contrast ::
      applyBrightnessContrast b brightness contrast :: a ::
      applyBrightnessContrastData brightness contrast rest
  | l => l

/-- Modelled from the spec's words for comparison (the claim's reading):
the remap `k(pixel + b − 128) + 128` with the raw `b ∈ [−1, 1]` inserted
directly, rounded toward the nearest integer and clamped to `[0, 255]`. -/
def specBrightnessContrast (p : ℕ) (b c : ℚ) : ℕ :=
  let k := 259 * (c + 1) / (255 * (1 - c))
  let v := k * ((p : ℚ) + b - 128) + 128
  (max 0 (min 255 (jsRound v))).toNat

theorem isDup_rawValue {o it : DetectedBarcode} (h : isDup o it = true) :
    o.rawValue = it.rawValue := by
  simp only [isDup, Bool.and_eq_true, beq_iff_eq, decide_eq_true_eq] at h
  exact h.1

theorem mergeInto_eq_none {it : DetectedBarcode} {out : List DetectedBarcode} :
    mergeInto it out = none ↔ ∀ o ∈ out, isDup o it = false := by
  induction out with
  | nil => simp [mergeInto]
  | cons o rest ih =>
    by_cases h : isDup o it
    · simp [mergeInto, h]
    · simp only [mergeInto, h]
      simp [Option.map_eq_none', ih, Bool.not_eq_true] at h ⊢
      intro _
      exact h

theorem mergeInto_mem {it : DetectedBarcode} {out out2 : List DetectedBarcode}
    (h : mergeInto it out = some out2) : ∀ d ∈ out2, d ∈ out ∨ d = it := by
  induction out generalizing out2 with
  | nil => simp [mergeInto] at h
  | cons o rest ih =>
    simp only [mergeInto] at h
    by_cases hd : isDup o it
    · rw [if_pos hd, Option.some.injEq] at h
      intro d hdm
      rcases (h ▸ hdm : d ∈ if area it.boundingBox > area o.boundingBox then it :: rest else o :: rest) with hm
      split at hm
      · rcases List.mem_cons.mp hm with h1 | h1
        · exact Or.inr h1
        · exact Or.inl (List.mem_cons_of_mem _ h1)
      · rcases List.mem_cons.mp hm with h1 | h1
        · exact Or.inl (h1 ▸ List.mem_cons_self _ _)
        · exact Or.inl (List.mem_cons_of_mem _ h1)
    · rw [if_neg hd] at h
      rcases Option.map_eq_some'.mp h with ⟨rest2, hr, hcons⟩
      subst hcons
      intro d hdm
      rcases List.mem_cons.mp hdm with h1 | h1
      · exact Or.inl (h1 ▸ List.mem_cons_self _ _)
      · rcases ih hr d h1 with h2 | h2
        · exact Or.inl (List.mem_cons_of_mem _ h2)
        · exact Or.inr h2

theorem mergeInto_length {it : DetectedBarcode} {out out2 : List DetectedBarcode}
    (h : mergeInto it out = some out2) : out2.length = out.length := by
  induction out generalizing out2 with
  | nil => simp [mergeInto] at h
  | cons o rest ih =>
    simp only [mergeInto] at h
    by_cases hd : isDup o it
    · rw [if_pos hd, Option.some.injEq] at h
      subst h
      split <;> simp
    · rw [if_neg hd] at h
      rcases Option.map_eq_some'.mp h with ⟨rest2, hr, hcons⟩
      subst hcons
      simp [ih hr]

theorem mergeInto_rawValues {it : DetectedBarcode} {out out2 : List DetectedBarcode}
    (h : mergeInto it out = some out2) :
    out2.map DetectedBarcode.rawValue = out.map DetectedBarcode.rawValue ∧
      it.rawValue ∈ out.map DetectedBarcode.rawValue := by
  induction out generalizing out2 with
  | nil => simp [mergeInto] at h
  | cons o rest ih =>
    simp only [mergeInto] at h
    by_cases hd : isDup o it
    · rw [if_pos hd, Option.some.injEq] at h
      subst h
      have hr := isDup_rawValue hd
      constructor
      · split <;> simp [hr]
      · simp [hr]
    · rw [if_neg hd] at h
      rcases Option.map_eq_some'.mp h with ⟨rest2, hr, hcons⟩
      subst hcons
      rcases ih hr with ⟨h1, h2⟩
      exact ⟨by simp [h1], by simp [h2]⟩

theorem dedupeGo_mem {d : DetectedBarcode} :
    ∀ {items out : List DetectedBarcode}, d ∈ dedupeGo out items → d ∈ out ∨ d ∈ items := by
  intro items
  induction items with
  | nil => intro out h; exact Or.inl h
  | cons it rest ih =>
    intro out h
    rw [dedupeGo] at h
    rcases hm : mergeInto it out with _ | out2
    · rw [hm] at h
      rcases ih h with h1 | h1
      · rcases List.mem_append.mp h1 with h2 | h2
        · exact Or.inl h2
        · exact Or.inr (List.mem_cons.mpr (Or.inl (List.mem_singleton.mp h2)))
      · exact Or.inr (List.mem_cons_of_mem _ h1)
    · rw [hm] at h
      rcases ih h with h1 | h1
      · rcases mergeInto_mem hm d h1 with h2 | h2
        · exact Or.inl h2
        · exact Or.inr (h2 ▸ List.mem_cons_self _ _)
      · exact Or.inr (List.mem_cons_of_mem _ h1)

theorem dedupeGo_length :
    ∀ {items out : List DetectedBarcode}, (dedupeGo out items).length ≤ out.length + items.length := by
  intro items
  induction items with
  | nil => intro out; simp [dedupeGo]
  | cons it rest ih =>
    intro out
    rw [dedupeGo]
    rcases hm : mergeInto it out with _ | out2
    · calc (dedupeGo (out ++ [it]) rest).length ≤ (out ++ [it]).length + rest.length := ih
        _ = out.length + (it :: rest).length := by simp [Nat.add_assoc, Nat.add_comm 1 rest.length]
    · calc (dedupeGo out2 rest).length ≤ out2.length + rest.length := ih
        _ ≤ out.length + (it :: rest).length := by
            simp [mergeInto_length hm, List.length_cons]

theorem dedupeGo_rawValues {v : String} :
    ∀ {items out : List DetectedBarcode},
      (v ∈ (dedupeGo out items).map DetectedBarcode.rawValue ↔
        v ∈ out.map DetectedBarcode.rawValue ∨ v ∈ items.map DetectedBarcode.rawValue) := by
  intro items
  induction items with
  | nil => intro out; simp [dedupeGo]
  | cons it rest ih =>
    intro out
    rw [dedupeGo]
    rcases hm : mergeInto it out with _ | out2
    · rw [ih]
      simp only [List.map_append, List.map_cons, List.map_nil, List.mem_append,
        List.mem_cons, List.mem_singleton]
      tauto
    · rw [ih]
      rcases mergeInto_rawValues hm with ⟨h1, h2⟩
      rw [h1]
      simp only [List.map_cons, List.mem_cons]
      constructor
      · tauto
      · rintro (h3 | h3 | h3)
        · exact Or.inl h3
        · exact Or.inl (h3 ▸ h2)
        · exact Or.inr h3

/-- C10: result fusion never fabricates or mutates a detection, never grows
the list, and preserves the set of distinct raw values. -/
theorem dedupe_invariants (l : List DetectedBarcode) :
    (∀ d ∈ dedupe l, d ∈ l) ∧
    (dedupe l).length ≤ l.length ∧
    (∀ v, v ∈ (dedupe l).map DetectedBarcode.rawValue ↔
      v ∈ l.map DetectedBarcode.rawValue) := by
  refine ⟨fun d hd => ?_, ?_, fun v => ?_⟩
  · rcases dedupeGo_mem hd with h | h
    · simp at h
    · exact h
  · have h := @dedupeGo_length l []
    simpa using h
  · rw [dedupe, dedupeGo_rawValues]
    simp

/-- C10 witness: fusion output elements come from the input and the output
is no longer, at a concrete two-element list. -/
theorem dedupe_invariants_witness :
    (⟨"v", .qr_code, [], ⟨0, 0, 10, 10⟩⟩ : DetectedBarcode) ∈
      ([⟨"v", .qr_code, [], ⟨0, 0, 10, 10⟩⟩,
        ⟨"w", .qr_code, [], ⟨20, 0, 5, 5⟩⟩] : List DetectedBarcode) ∧
    (dedupe [⟨"v", .qr_code, [], ⟨0, 0, 10, 10⟩⟩,
        ⟨"w", .qr_code, [], ⟨20, 0, 5, 5⟩⟩]).length ≤
      ([⟨"v", .qr_code, [], ⟨0, 0, 10, 10⟩⟩,
        ⟨"w", .qr_code, [], ⟨20, 0, 5, 5⟩⟩] : List DetectedBarcode).length :=
  ⟨(dedupe_invariants [⟨"v", .qr_code, [], ⟨0, 0, 10, 10⟩⟩,
        ⟨"w", .qr_code, [], ⟨20, 0, 5, 5⟩⟩]).1 _
      (by norm_num [dedupe, dedupeGo, mergeInto, isDup, iou]),
   (dedupe_invariants [⟨"v", .qr_code, [], ⟨0, 0, 10, 10⟩⟩,
        ⟨"w", .qr_code, [], ⟨20, 0, 5, 5⟩⟩]).2.1⟩

theorem dedupeGo_of_no_dup :
    ∀ {items out : List DetectedBarcode},
      (∀ o ∈ out, ∀ i ∈ items, isDup o i = false) →
      items.Pairwise (fun a b => isDup a b = false) →
      dedupeGo out items = out ++ items := by
  intro items
  induction items with
  | nil => intro out _ _; simp [dedupeGo]
  | cons it rest ih =>
    intro out hsep hpw
    rw [dedupeGo]
    have hm : mergeInto it out = none :=
      mergeInto_eq_none.mpr (fun o ho => hsep o ho it (List.mem_cons_self _ _))
    rw [hm]
    rw [List.pairwise_cons] at hpw
    have hsep2 : ∀ o ∈ out ++ [it], ∀ i ∈ rest, isDup o i = false := by
      intro o ho i hi
      rcases List.mem_append.mp ho with h1 | h1
      · exact hsep o h1 i (List.mem_cons_of_mem _ hi)
      · exact (List.mem_singleton.mp h1) ▸ hpw.1 i hi
    rw [ih hsep2 hpw.2]
    simp

theorem dedupe_of_pairwise {Y : List DetectedBarcode}
    (h : Y.Pairwise (fun a b => isDup a b = false)) : dedupe Y = Y := by
  rw [dedupe, dedupeGo_of_no_dup (by simp) h]
  simp

/-- C2 (amended): result fusion is idempotent on any input whose fused output
contains no residual duplicate pair; in general a second pass can merge
further (see the counterexample). -/
theorem dedupe_idempotent_of_pairwise (X : List DetectedBarcode)
    (h : (dedupe X).Pairwise (fun a b => isDup a b = false)) :
    dedupe (dedupe X) = dedupe X :=
  dedupe_of_pairwise h

/-- C2 witness: idempotence on a concrete fused list without residual duplicates. -/
theorem dedupe_idempotent_witness :
    dedupe (dedupe [⟨"v", .qr_code, [], ⟨0, 0, 10, 10⟩⟩,
        ⟨"w", .qr_code, [], ⟨100, 100, 10, 10⟩⟩]) =
      dedupe [⟨"v", .qr_code, [], ⟨0, 0, 10, 10⟩⟩,
        ⟨"w", .qr_code, [], ⟨100, 100, 10, 10⟩⟩] :=
  dedupe_idempotent_of_pairwise _ (by
    norm_num [dedupe, dedupeGo, mergeInto, isDup, iou, area])

/-- C2 counterexample: `dedupe` is not idempotent as stated.  Processing
`[A, C, B]` (same raw value, `iou A C = 0`, `iou A B = 1/3`, `iou B C = 7/15`)
replaces `A` by the larger `B`, which then overlaps the already kept `C`, so a
second pass merges again. -/
theorem dedupe_not_idempotent :
    dedupe (dedupe [⟨"v", .qr_code, [], ⟨0, 0, 10, 10⟩⟩,
        ⟨"v", .qr_code, [], ⟨15, 0, 14, 10⟩⟩, ⟨"v", .qr_code, [], ⟨0, 0, 30, 10⟩⟩]) ≠
      dedupe [⟨"v", .qr_code, [], ⟨0, 0, 10, 10⟩⟩,
        ⟨"v", .qr_code, [], ⟨15, 0, 14, 10⟩⟩, ⟨"v", .qr_code, [], ⟨0, 0, 30, 10⟩⟩] := by
  norm_num [dedupe, dedupeGo, mergeInto, isDup, iou, area]

theorem dedupe_pair_eq (a b : DetectedBarcode) :
    dedupe [a, b] =
      if isDup a b then (if area b.boundingBox > area a.boundingBox then [b] else [a])
      else [a, b] := by
  by_cases h : isDup a b <;>
    simp [dedupe, dedupeGo, mergeInto, h]

/-- C3 (amended): on a two-element list, two detections are treated as
duplicates iff raw values are equal and IoU exceeds 0.3; on such a duplicate
pair fusion keeps exactly one detection, the one with the strictly larger
bounding-box area (the first on area ties); a non-duplicate pair is kept
whole.  On longer lists, a duplicate pair can both survive (see the
counterexample). -/
theorem dedupe_pair_spec (a b : DetectedBarcode) :
    (isDup a b = true ↔
      (a.rawValue = b.rawValue ∧ iou a.boundingBox b.boundingBox > 3/10)) ∧
    (isDup a b = true →
      dedupe [a, b] = if area b.boundingBox > area a.boundingBox then [b] else [a]) ∧
    (isDup a b = false → dedupe [a, b] = [a, b]) ∧
    ((dedupe [a, b]).length = 1 ↔ isDup a b = true) := by
  refine ⟨by simp [isDup], fun h => ?_, fun h => ?_, ?_⟩
  · rw [dedupe_pair_eq, if_pos h]
  · rw [dedupe_pair_eq, if_neg (by simp [h])]
  · rw [dedupe_pair_eq]
    cases h : isDup a b with
    | false => simp
    | true =>
      rw [if_pos rfl]
      split <;> simp

/-- C3 witness: on a concrete duplicate pair the strictly larger box wins. -/
theorem dedupe_pair_witness :
    dedupe [⟨"v", .qr_code, [], ⟨0, 0, 10, 10⟩⟩, ⟨"v", .qr_code, [], ⟨0, 0, 30, 10⟩⟩] =
      [⟨"v", .qr_code, [], ⟨0, 0, 30, 10⟩⟩] := by
  have h := (dedupe_pair_spec ⟨"v", .qr_code, [], ⟨0, 0, 10, 10⟩⟩
    ⟨"v", .qr_code, [], ⟨0, 0, 30, 10⟩⟩).2.1 (by norm_num [isDup, iou])
  rw [h, if_pos (by norm_num [area])]

/-- C3 counterexample: in `[A, C, B]` (all raw value `"v"`), the pair `B`, `C`
has IoU `7/15 > 0.3` and `B` has the strictly larger area, yet fusion keeps
both, refuting the universally quantified claim. -/
theorem dedupe_pair_counterexample :
    isDup (⟨"v", .qr_code, [], ⟨0, 1, 30, 10⟩⟩ : DetectedBarcode)
        ⟨"v", .qr_code, [], ⟨15, 1, 14, 10⟩⟩ = true ∧
    area (⟨15, 1, 14, 10⟩ : BoundingBox) < area (⟨0, 1, 30, 10⟩ : BoundingBox) ∧
    dedupe [⟨"v", .qr_code, [], ⟨0, 1, 10, 10⟩⟩, ⟨"v", .qr_code, [], ⟨15, 1, 14, 10⟩⟩,
        ⟨"v", .qr_code, [], ⟨0, 1, 30, 10⟩⟩] =
      [⟨"v", .qr_code, [], ⟨0, 1, 30, 10⟩⟩, ⟨"v", .qr_code, [], ⟨15, 1, 14, 10⟩⟩] := by
  norm_num [dedupe, dedupeGo, mergeInto, isDup, iou, area]

theorem iou_mem_unit {a b : BoundingBox} (ha1 : 0 ≤ a.width) (ha2 : 0 ≤ a.height)
    (hb1 : 0 ≤ b.width) (hb2 : 0 ≤ b.height) : 0 ≤ iou a b ∧ iou a b ≤ 1 := by
  simp only [iou]
  set ix := max 0 (min (a.x + a.width) (b.x + b.width) - max a.x b.x) with hix
  set iy := max 0 (min (a.y + a.height) (b.y + b.height) - max a.y b.y) with hiy
  have hix0 : 0 ≤ ix := le_max_left _ _
  have hiy0 : 0 ≤ iy := le_max_left _ _
  have hixa : ix ≤ a.width := max_le ha1 (by
    have h1 := min_le_left (a.x + a.width) (b.x + b.width)
    have h2 := le_max_left a.x b.x
    linarith)
  have hiya : iy ≤ a.height := max_le ha2 (by
    have h1 := min_le_left (a.y + a.height) (b.y + b.height)
    have h2 := le_max_left a.y b.y
    linarith)
  have hixb : ix ≤ b.width := max_le hb1 (by
    have h1 := min_le_right (a.x + a.width) (b.x + b.width)
    have h2 := le_max_right a.x b.x
    linarith)
  have hiyb : iy ≤ b.height := max_le hb2 (by
    have h1 := min_le_right (a.y + a.height) (b.y + b.height)
    have h2 := le_max_right a.y b.y
    linarith)
  have h1 : ix * iy ≤ a.width * a.height := mul_le_mul hixa hiya hiy0 ha1
  have h2 : ix * iy ≤ b.width * b.height := mul_le_mul hixb hiyb hiy0 hb1
  split_ifs with h
  · constructor
    · exact div_nonneg (mul_nonneg hix0 hiy0) h.le
    · rw [div_le_one h]
      linarith
  · norm_num

theorem iou_self {a : BoundingBox} (h1 : 0 < a.width) (h2 : 0 < a.height) :
    iou a a = 1 := by
  simp only [iou, min_self, max_self, add_sub_cancel_left]
  rw [max_eq_right h1.le, max_eq_right h2.le]
  rw [show a.width * a.height + a.width * a.height - a.width * a.height
      = a.width * a.height by ring]
  rw [if_pos (by positivity)]
  exact div_self (by positivity)

theorem iou_disjoint {a b : BoundingBox}
    (h : min (a.x + a.width) (b.x + b.width) ≤ max a.x b.x ∨
      min (a.y + a.height) (b.y + b.height) ≤ max a.y b.y) : iou a b = 0 := by
  simp only [iou]
  rcases h with h | h
  · rw [max_eq_left (sub_nonpos.mpr h)]
    simp only [zero_mul, sub_zero, zero_div]
    split_ifs <;> rfl
  · rw [max_eq_left (sub_nonpos.mpr h)]
    simp only [mul_zero, sub_zero, zero_div]
    split_ifs <;> rfl

theorem iou_half {a b : BoundingBox} (hx1 : a.x ≤ b.x)
    (hx2 : b.x + b.width ≤ a.x + a.width) (hy1 : a.y ≤ b.y)
    (hy2 : b.y + b.height ≤ a.y + a.height) (hw : 0 < b.width) (hh : 0 < b.height)
    (harea : area a = 2 * area b) : iou a b = 1/2 := by
  simp only [iou]
  rw [min_eq_right hx2, max_eq_right hx1, min_eq_right hy2, max_eq_right hy1,
    add_sub_cancel_left, add_sub_cancel_left, max_eq_right hw.le, max_eq_right hh.le]
  have ha' : a.width * a.height = 2 * (b.width * b.height) := by
    have := harea
    simp only [area] at this
    linarith
  rw [show a.width * a.height + b.width * b.height - b.width * b.height
      = a.width * a.height by ring, ha']
  rw [if_pos (by positivity)]
  rw [div_eq_iff (by positivity)]
  ring

/-- C4 (amended): the IoU of boxes with non-negative dimensions lies in
`[0, 1]`; two identical boxes of positive dimensions have IoU `1`; two
disjoint boxes have IoU `0`; a box fully containing a box of positive
dimensions and half its area has IoU `1/2`.  For a degenerate pair with
union area `0` (e.g. two identical zero-area boxes) the code returns `0`,
not `1` (see the counterexample). -/
theorem iou_spec (a b : BoundingBox) :
    (0 ≤ a.width → 0 ≤ a.height → 0 ≤ b.width → 0 ≤ b.height →
      0 ≤ iou a b ∧ iou a b ≤ 1) ∧
    (0 < a.width → 0 < a.height → iou a a = 1) ∧
    ((min (a.x + a.width) (b.x + b.width) ≤ max a.x b.x ∨
        min (a.y + a.height) (b.y + b.height) ≤ max a.y b.y) → iou a b = 0) ∧
    (a.x ≤ b.x → b.x + b.width ≤ a.x + a.width → a.y ≤ b.y →
      b.y + b.height ≤ a.y + a.height → 0 < b.width → 0 < b.height →
      area a = 2 * area b → iou a b = 1/2) :=
  ⟨fun h1 h2 h3 h4 => iou_mem_unit h1 h2 h3 h4,
   fun h1 h2 => iou_self h1 h2,
   fun h => iou_disjoint h,
   fun hx1 hx2 hy1 hy2 hw hh ha => iou_half hx1 hx2 hy1 hy2 hw hh ha⟩

/-- C4 witness: the four IoU anchor properties at concrete boxes. -/
theorem iou_spec_witness :
    (0 ≤ iou ⟨0, 0, 4, 4⟩ ⟨2, 2, 4, 4⟩ ∧ iou ⟨0, 0, 4, 4⟩ ⟨2, 2, 4, 4⟩ ≤ 1) ∧
    iou ⟨0, 0, 4, 4⟩ ⟨0, 0, 4, 4⟩ = 1 ∧
    iou ⟨0, 0, 4, 4⟩ ⟨10, 0, 4, 4⟩ = 0 ∧
    iou ⟨0, 0, 4, 4⟩ ⟨0, 0, 2, 4⟩ = 1/2 :=
  ⟨(iou_spec ⟨0, 0, 4, 4⟩ ⟨2, 2, 4, 4⟩).1 (by norm_num) (by norm_num) (by norm_num)
      (by norm_num),
   (iou_spec ⟨0, 0, 4, 4⟩ ⟨0, 0, 4, 4⟩).2.1 (by norm_num) (by norm_num),
   (iou_spec ⟨0, 0, 4, 4⟩ ⟨10, 0, 4, 4⟩).2.2.1 (by norm_num),
   (iou_spec ⟨0, 0, 4, 4⟩ ⟨0, 0, 2, 4⟩).2.2.2 (by norm_num) (by norm_num) (by norm_num)
      (by norm_num) (by norm_num) (by norm_num) (by norm_num [area])⟩

/-- C4 counterexample: two identical zero-area boxes (the code produces such
degenerate boxes for engine hits without geometry) have IoU `0`, not `1`. -/
theorem iou_identical_counterexample :
    iou ⟨0, 0, 0, 0⟩ ⟨0, 0, 0, 0⟩ ≠ 1 ∧ iou ⟨0, 0, 0, 0⟩ ⟨0, 0, 0, 0⟩ = 0 := by
  norm_num [iou]

theorem scanAxisF_mem {step limit : ℤ} (hstep : 0 < step) :
    ∀ (fuel : ℕ) (v z : ℤ), (limit + 1 - v).toNat < fuel →
      (z ∈ scanAxisF step limit fuel v ↔ ∃ i : ℕ, z = v + i * step ∧ z ≤ limit) := by
  intro fuel
  induction fuel with
  | zero => intro v z h; omega
  | succ fuel ih =>
    intro v z h
    rw [scanAxisF]
    split_ifs with hv
    · rw [List.mem_cons, ih (v + step) z (by omega)]
      constructor
      · rintro (rfl | ⟨i, rfl, hz⟩)
        · exact ⟨0, by simp, hv⟩
        · exact ⟨i + 1, by push_cast; ring, hz⟩
      · rintro ⟨i, rfl, hz⟩
        cases i with
        | zero => left; simp
        | succ i => right; exact ⟨i, by push_cast; ring, hz⟩
    · simp only [List.not_mem_nil, false_iff]
      rintro ⟨i, rfl, hz⟩
      push_neg at hv
      have hi : (0 : ℤ) ≤ (i : ℤ) * step := mul_nonneg (Int.natCast_nonneg i) hstep.le
      linarith

theorem scanAxis_mem {step limit : ℤ} (hstep : 0 < step) (z : ℤ) :
    z ∈ scanAxis step limit ↔ ∃ i : ℕ, z = i * step ∧ z ≤ limit := by
  rw [scanAxis, scanAxisF_mem hstep _ 0 z (by omega)]
  simp

theorem strideDim_pos (win : ℤ) (overlap : ℚ) : 0 < strideDim win overlap :=
  lt_of_lt_of_le (by norm_num) (le_max_left _ _)

theorem gridScanLoop_eq (det : ℤ → ℤ → Option (String × Corners)) :
    ∀ (origins : List (ℤ × ℤ)) (out : List DetectedBarcode) (seen : List String),
      gridScanLoop det origins out seen =
        out ++ keepFirstByValue seen (origins.filterMap (tileHit det)) := by
  intro origins
  induction origins with
  | nil => intro out seen; simp [gridScanLoop, keepFirstByValue]
  | cons xy rest ih =>
    intro out seen
    rw [gridScanLoop]
    rcases ht : tileHit det xy with _ | mapped
    · rw [ih, List.filterMap_cons, ht]
    · rw [List.filterMap_cons, ht]
      dsimp only
      by_cases hs : mapped.rawValue ∈ seen
      · rw [if_pos hs, ih, keepFirstByValue, if_pos hs]
      · rw [if_neg hs, ih, keepFirstByValue, if_neg hs]
        simp

theorem keepFirstByValue_spec :
    ∀ (l : List DetectedBarcode) (seen : List String) (d : DetectedBarcode),
      d ∈ keepFirstByValue seen l →
        d.rawValue ∉ seen ∧ l.find? (fun e => e.rawValue == d.rawValue) = some d := by
  intro l
  induction l with
  | nil => intro seen d h; simp [keepFirstByValue] at h
  | cons d0 rest ih =>
    intro seen d h
    rw [keepFirstByValue] at h
    by_cases hs : d0.rawValue ∈ seen
    · rw [if_pos hs] at h
      rcases ih seen d h with ⟨h1, h2⟩
      refine ⟨h1, ?_⟩
      rw [List.find?_cons_of_neg, h2]
      simp only [beq_iff_eq]
      intro hc
      exact h1 (hc ▸ hs)
    · rw [if_neg hs] at h
      rcases List.mem_cons.mp h with rfl | h1
      · exact ⟨hs, by rw [List.find?_cons_of_pos] ; simp⟩
      · rcases ih _ d h1 with ⟨h2, h3⟩
        simp only [List.mem_cons, not_or] at h2
        refine ⟨h2.2, ?_⟩
        rw [List.find?_cons_of_neg, h3]
        simp only [beq_iff_eq]
        exact fun hc => h2.1 (hc ▸ rfl)

theorem keepFirstByValue_nodup :
    ∀ (l : List DetectedBarcode) (seen : List String),
      ((keepFirstByValue seen l).map DetectedBarcode.rawValue).Nodup := by
  intro l
  induction l with
  | nil => intro seen; simp [keepFirstByValue]
  | cons d0 rest ih =>
    intro seen
    rw [keepFirstByValue]
    by_cases hs : d0.rawValue ∈ seen
    · rw [if_pos hs]; exact ih seen
    · rw [if_neg hs]
      simp only [List.map_cons, List.nodup_cons]
      refine ⟨fun hc => ?_, ih _⟩
      rcases List.mem_map.mp hc with ⟨e, he, heq⟩
      rcases keepFirstByValue_spec rest _ e he with ⟨h1, _⟩
      exact h1 (by simp [heq])

theorem tileOrigins_mem (W H : ℕ) (overlap windowRatio : ℚ) (x y : ℤ) :
    (x, y) ∈ tileOrigins W H overlap windowRatio ↔
      ((∃ i : ℕ, x = i * strideDim (winDim W windowRatio) overlap) ∧
       (∃ j : ℕ, y = j * strideDim (winDim H windowRatio) overlap) ∧
       x + winDim W windowRatio ≤ (W : ℤ) ∧ y + winDim H windowRatio ≤ (H : ℤ)) := by
  simp only [tileOrigins, List.mem_flatMap, List.mem_map, Prod.mk.injEq]
  constructor
  · rintro ⟨y', hy', x', hx', rfl, rfl⟩
    rcases (scanAxis_mem (strideDim_pos _ _) x').mp hx' with ⟨i, rfl, hxl⟩
    rcases (scanAxis_mem (strideDim_pos _ _) y').mp hy' with ⟨j, rfl, hyl⟩
    exact ⟨⟨i, rfl⟩, ⟨j, rfl⟩, by linarith, by linarith⟩
  · rintro ⟨⟨i, rfl⟩, ⟨j, rfl⟩, hx, hy⟩
    refine ⟨_, (scanAxis_mem (strideDim_pos _ _) _).mpr ⟨j, rfl, by linarith⟩,
      _, (scanAxis_mem (strideDim_pos _ _) _).mpr ⟨i, rfl, by linarith⟩, rfl, rfl⟩

/-- C5: the tiled re-scan uses window `max(32, floor(dim * windowRatio))` and
stride `max(16, floor(win * (1 - overlap)))` per axis, visits exactly the
stride-multiple origins for which the window fits (inclusive), translates
each hit's corners by its tile origin, and keeps the first hit per distinct
raw value within the pass. -/
theorem gridScanWithJsqr_spec (W H : ℕ) (overlap windowRatio : ℚ)
    (det : ℤ → ℤ → Option (String × Corners)) :
    (winDim W windowRatio = max 32 ⌊(W : ℚ) * windowRatio⌋ ∧
     winDim H windowRatio = max 32 ⌊(H : ℚ) * windowRatio⌋) ∧
    (∀ win : ℤ, strideDim win overlap = max 16 ⌊(win : ℚ) * (1 - overlap)⌋) ∧
    (∀ x y : ℤ, (x, y) ∈ tileOrigins W H overlap windowRatio ↔
      ((∃ i : ℕ, x = i * strideDim (winDim W windowRatio) overlap) ∧
       (∃ j : ℕ, y = j * strideDim (winDim H windowRatio) overlap) ∧
       x + winDim W windowRatio ≤ (W : ℤ) ∧ y + winDim H windowRatio ≤ (H : ℤ))) ∧
    (∀ xy : ℤ × ℤ, tileHit det xy =
      (det xy.1 xy.2).map fun rc => mkResult rc.1 (rc.2.translate xy.1 xy.2)) ∧
    (gridScanWithJsqr W H overlap windowRatio det =
      keepFirstByValue [] ((tileOrigins W H overlap windowRatio).filterMap (tileHit det))) ∧
    ((gridScanWithJsqr W H overlap windowRatio det).map DetectedBarcode.rawValue).Nodup ∧
    (∀ d ∈ gridScanWithJsqr W H overlap windowRatio det,
      ((tileOrigins W H overlap windowRatio).filterMap (tileHit det)).find?
        (fun e => e.rawValue == d.rawValue) = some d) := by
  have hloop : gridScanWithJsqr W H overlap windowRatio det =
      keepFirstByValue [] ((tileOrigins W H overlap windowRatio).filterMap (tileHit det)) := by
    rw [gridScanWithJsqr, gridScanLoop_eq]
    simp
  refine ⟨⟨rfl, rfl⟩, fun win => rfl, tileOrigins_mem W H overlap windowRatio,
    fun xy => ?_, hloop, ?_, fun d hd => ?_⟩
  · rcases h : det xy.1 xy.2 with _ | ⟨raw, cps⟩ <;> simp [tileHit, h]
  · rw [hloop]; exact keepFirstByValue_nodup _ _
  · rw [hloop] at hd
    exact (keepFirstByValue_spec _ _ _ hd).2

/-- C5 witness: on a concrete 32 by 32 grid with a single tile, the grid scan
emits the translated hit, which is the first hit carrying its raw value. -/
theorem gridScanWithJsqr_spec_witness :
    ((tileOrigins 32 32 (1/2) (1/2)).filterMap
        (tileHit (fun _ _ => some ("A", ⟨⟨0, 0⟩, ⟨10, 0⟩, ⟨10, 10⟩, ⟨0, 10⟩⟩)))).find?
      (fun e => e.rawValue ==
        (mkResult "A" (Corners.translate ⟨⟨0, 0⟩, ⟨10, 0⟩, ⟨10, 10⟩, ⟨0, 10⟩⟩ 0 0)).rawValue) =
    some (mkResult "A" (Corners.translate ⟨⟨0, 0⟩, ⟨10, 0⟩, ⟨10, 10⟩, ⟨0, 10⟩⟩ 0 0)) := by
  apply (gridScanWithJsqr_spec 32 32 (1/2) (1/2) _).2.2.2.2.2.2
  norm_num [gridScanWithJsqr, tileOrigins, winDim, strideDim, scanAxis, scanAxisF,
    gridScanLoop, tileHit]

theorem mkResult_format (raw : String) (cps : Corners) :
    (mkResult raw cps).format = .qr_code := rfl

theorem keepFirstByValue_subset {seen : List String} {l : List DetectedBarcode}
    {d : DetectedBarcode} (h : d ∈ keepFirstByValue seen l) : d ∈ l :=
  List.mem_of_find?_eq_some (keepFirstByValue_spec l seen d h).2

theorem gridScanWithJsqr_format (W H : ℕ) (overlap windowRatio : ℚ)
    (det : ℤ → ℤ → Option (String × Corners)) :
    ∀ d ∈ gridScanWithJsqr W H overlap windowRatio det, d.format = .qr_code := by
  intro d hd
  rw [gridScanWithJsqr, gridScanLoop_eq] at hd
  simp only [List.nil_append] at hd
  have hd2 := keepFirstByValue_subset hd
  rcases List.mem_filterMap.mp hd2 with ⟨xy, _, hhit⟩
  rw [tileHit] at hhit
  rcases h : det xy.1 xy.2 with _ | ⟨raw, cps⟩
  · rw [h] at hhit; exact absurd hhit (by simp)
  · rw [h] at hhit
    simp only [Option.some.injEq] at hhit
    rw [← hhit]
    rfl

theorem dedupe_subset {l : List DetectedBarcode} {d : DetectedBarcode}
    (h : d ∈ dedupe l) : d ∈ l := by
  rcases dedupeGo_mem h with h1 | h1
  · simp at h1
  · exact h1

theorem baseResults_format (W H : ℕ) (jsqrFull jsqrEnhanced : Option (String × Corners))
    (gridDet : ℤ → ℤ → Option (String × Corners)) :
    ∀ d ∈ baseResults W H jsqrFull jsqrEnhanced gridDet, d.format = .qr_code := by
  intro d hd
  rcases List.mem_append.mp hd with h1 | h1
  · rcases jsqrFull with _ | ⟨raw, cps⟩
    · rcases jsqrEnhanced with _ | ⟨raw2, cps2⟩
      · simp [jsqrResults] at h1
      · simp [jsqrResults] at h1; rw [h1]; rfl
    · simp [jsqrResults] at h1; rw [h1]; rfl
  · exact gridScanWithJsqr_format W H _ _ gridDet d (List.mem_of_mem_filter h1)

theorem mergeZxingQR_format {dedupedQR : List DetectedBarcode}
    {z : Except String (List DetectedBarcode)}
    (h1 : ∀ d ∈ dedupedQR, d.format = .qr_code)
    (h2 : ∀ res, z = .ok res → ∀ d ∈ res, d.format = .qr_code) :
    ∀ d ∈ mergeZxingQR dedupedQR z, d.format = .qr_code := by
  intro d hd
  rcases z with e | zxingQR
  · exact h1 d hd
  · rw [mergeZxingQR] at hd
    by_cases hempty : zxingQR.isEmpty
    · rw [if_pos hempty] at hd
      exact h1 d hd
    · rw [if_neg hempty] at hd
      rcases List.mem_append.mp (dedupe_subset hd) with h3 | h3
      · exact h1 d h3
      · exact h2 zxingQR rfl d h3

/-- C1: with an empty format list, every detection the pipeline returns has
format `qr_code` — the multi-symbology engine is only ever invoked restricted
to `qr_code`, never for the other formats — provided the engine honours the
format restriction it receives. -/
theorem decodeMultiFormat_empty_formats_qr_only (W H : ℕ)
    (jsqrFull jsqrEnhanced : Option (String × Corners))
    (gridDet : ℤ → ℤ → Option (String × Corners))
    (zxing : List BarcodeFormat → Except String (List DetectedBarcode))
    (hzx : ∀ res, zxing [.qr_code] = .ok res → ∀ d ∈ res, d.format = .qr_code)
    (out : List DetectedBarcode)
    (hout : decodeMultiFormat W H jsqrFull jsqrEnhanced gridDet zxing [] = .ok out) :
    ∀ d ∈ out, d.format = .qr_code := by
  rw [decodeMultiFormat] at hout
  simp only [List.isEmpty_nil, Bool.true_or, if_true, List.filter_nil,
    Except.ok.injEq] at hout
  rw [← hout]
  exact mergeZxingQR_format
    (fun d hd => baseResults_format W H jsqrFull jsqrEnhanced gridDet d (dedupe_subset hd))
    hzx

/-- C1 witness: a concrete empty-formats run returning one QR detection. -/
theorem decodeMultiFormat_empty_witness :
    (mkResult "HELLO" ⟨⟨0, 0⟩, ⟨10, 0⟩, ⟨10, 10⟩, ⟨0, 10⟩⟩).format =
      BarcodeFormat.qr_code :=
  decodeMultiFormat_empty_formats_qr_only 0 0
    (some ("HELLO", ⟨⟨0, 0⟩, ⟨10, 0⟩, ⟨10, 10⟩, ⟨0, 10⟩⟩)) none
    (fun _ _ => none) (fun _ => .ok [])
    (by intro res h d hd; simp only [Except.ok.injEq] at h; subst h; simp at hd)
    [mkResult "HELLO" ⟨⟨0, 0⟩, ⟨10, 0⟩, ⟨10, 10⟩, ⟨0, 10⟩⟩]
    (by norm_num [decodeMultiFormat, mergeZxingQR, baseResults, jsqrResults,
      gridScanWithJsqr, tileOrigins, winDim, strideDim, scanAxis, scanAxisF,
      gridScanLoop, dedupe, dedupeGo, mergeInto])
    (mkResult "HELLO" ⟨⟨0, 0⟩, ⟨10, 0⟩, ⟨10, 10⟩, ⟨0, 10⟩⟩) (by simp)

theorem rescaleDetection_one (r : DetectedBarcode) : rescaleDetection 1 r = r := by
  cases r with
  | mk raw fmt cps bb =>
    cases bb
    simp [rescaleDetection]

/-- C6: `detect` divides every bounding-box field and every corner
coordinate of every returned detection by the normalizer's scale, exactly
once at the API boundary, and a raw pixel-grid source passes through the
normalizer unchanged with scale `1`, so its returned geometry equals the
working-resolution geometry. -/
theorem detect_rescale_spec
    (worker : ImageDataModel → List BarcodeFormat → List DetectedBarcode)
    (formats : List BarcodeFormat) (img : ImageDataModel) (scale : ℚ)
    (r : DetectedBarcode) :
    toImageData (.imageData img) = (img, 1) ∧
    (∀ source, detect worker formats source =
      (worker (toImageData source).1 formats).map
        (rescaleDetection (toImageData source).2)) ∧
    ((rescaleDetection scale r).boundingBox.x = r.boundingBox.x / scale ∧
     (rescaleDetection scale r).boundingBox.y = r.boundingBox.y / scale ∧
     (rescaleDetection scale r).boundingBox.width = r.boundingBox.width / scale ∧
     (rescaleDetection scale r).boundingBox.height = r.boundingBox.height / scale ∧
     (rescaleDetection scale r).cornerPoints =
       r.cornerPoints.map (fun p => ⟨p.x / scale, p.y / scale⟩) ∧
     (rescaleDetection scale r).rawValue = r.rawValue ∧
     (rescaleDetection scale r).format = r.format) ∧
    detect worker formats (.imageData img) = worker img formats := by
  refine ⟨rfl, fun source => rfl, ⟨rfl, rfl, rfl, rfl, rfl, rfl, rfl⟩, ?_⟩
  show (worker img formats).map (rescaleDetection 1) = worker img formats
  rw [List.map_congr_left fun r _ => rescaleDetection_one r]
  exact List.map_id' _

/-- C7: in a non-interactive context (no worker facility, no window), the
worker façade returns an empty result immediately — no decode work, no
error. -/
theorem detectInWorker_non_interactive (ctx : ExecutionContext)
    (img : ImageDataModel) (formats : List BarcodeFormat)
    (h1 : ctx.hasWorker = false) (h2 : ctx.hasWindow = false) :
    detectInWorker ctx img formats = .immediate [] := by
  simp [detectInWorker, h1, h2]

/-- C7 witness: the short-circuit at a concrete non-interactive context. -/
theorem detectInWorker_non_interactive_witness :
    detectInWorker ⟨false, false⟩ ⟨0, 0, []⟩ [] = .immediate [] :=
  detectInWorker_non_interactive ⟨false, false⟩ ⟨0, 0, []⟩ [] rfl rfl

theorem cropClamp_safe (W H fx fy fw fh : ℤ) (hW : 1 ≤ W) (hH : 1 ≤ H) :
    0 ≤ max 0 (min (W - 1) fx) ∧ max 0 (min (W - 1) fx) ≤ W - 1 ∧
    0 ≤ max 0 (min (H - 1) fy) ∧ max 0 (min (H - 1) fy) ≤ H - 1 ∧
    1 ≤ max 1 (min (W - max 0 (min (W - 1) fx)) fw) ∧
    1 ≤ max 1 (min (H - max 0 (min (H - 1) fy)) fh) ∧
    max 0 (min (W - 1) fx) + max 1 (min (W - max 0 (min (W - 1) fx)) fw) ≤ W ∧
    max 0 (min (H - 1) fy) + max 1 (min (H - max 0 (min (H - 1) fy)) fh) ≤ H := by
  have hx0 : 0 ≤ max 0 (min (W - 1) fx) := le_max_left _ _
  have hx1 : max 0 (min (W - 1) fx) ≤ W - 1 := max_le (by omega) (min_le_left _ _)
  have hy0 : 0 ≤ max 0 (min (H - 1) fy) := le_max_left _ _
  have hy1 : max 0 (min (H - 1) fy) ≤ H - 1 := max_le (by omega) (min_le_left _ _)
  have hw1 : 1 ≤ max 1 (min (W - max 0 (min (W - 1) fx)) fw) := le_max_left _ _
  have hh1 : 1 ≤ max 1 (min (H - max 0 (min (H - 1) fy)) fh) := le_max_left _ _
  have hxw : max 1 (min (W - max 0 (min (W - 1) fx)) fw) ≤ W - max 0 (min (W - 1) fx) :=
    max_le (by omega) (min_le_left _ _)
  have hyh : max 1 (min (H - max 0 (min (H - 1) fy)) fh) ≤ H - max 0 (min (H - 1) fy) :=
    max_le (by omega) (min_le_left _ _)
  exact ⟨hx0, hx1, hy0, hy1, hw1, hh1, by omega, by omega⟩

/-- C8: for any positive source grid and any ROI (absolute or normalized,
possibly out of range or non-positive), the clamped crop rectangle has its
origin inside the grid, dimensions at least one, fits inside the grid, and
every source-buffer read of the row copy is in bounds. -/
theorem cropImageData_safe (W H : ℕ) (roi : RoiRect) (hW : 1 ≤ W) (hH : 1 ≤ H) :
    0 ≤ (cropRect W H roi).x ∧ (cropRect W H roi).x ≤ (W : ℤ) - 1 ∧
    0 ≤ (cropRect W H roi).y ∧ (cropRect W H roi).y ≤ (H : ℤ) - 1 ∧
    1 ≤ (cropRect W H roi).width ∧ 1 ≤ (cropRect W H roi).height ∧
    (cropRect W H roi).x + (cropRect W H roi).width ≤ (W : ℤ) ∧
    (cropRect W H roi).y + (cropRect W H roi).height ≤ (H : ℤ) ∧
    (∀ row k : ℕ, row < (cropRect W H roi).height.toNat →
      k < (cropRect W H roi).width.toNat * 4 →
      (((cropRect W H roi).y.toNat + row) * W + (cropRect W H roi).x.toNat) * 4 + k
        < W * H * 4) := by
  have h := cropClamp_safe (W : ℤ) (H : ℤ)
    ⌊if roi.normalized then (jsRound (roi.x * W) : ℚ) else roi.x⌋
    ⌊if roi.normalized then (jsRound (roi.y * H) : ℚ) else roi.y⌋
    ⌊if roi.normalized then (jsRound (roi.width * W) : ℚ) else roi.width⌋
    ⌊if roi.normalized then (jsRound (roi.height * H) : ℚ) else roi.height⌋
    (by exact_mod_cast hW) (by exact_mod_cast hH)
  obtain ⟨hx0, hx1, hy0, hy1, hw1, hh1, hxw, hyh⟩ := h
  have Hx0 : 0 ≤ (cropRect W H roi).x := hx0
  have Hx1 : (cropRect W H roi).x ≤ (W : ℤ) - 1 := hx1
  have Hy0 : 0 ≤ (cropRect W H roi).y := hy0
  have Hy1 : (cropRect W H roi).y ≤ (H : ℤ) - 1 := hy1
  have Hw1 : 1 ≤ (cropRect W H roi).width := hw1
  have Hh1 : 1 ≤ (cropRect W H roi).height := hh1
  have Hxw : (cropRect W H roi).x + (cropRect W H roi).width ≤ (W : ℤ) := hxw
  have Hyh : (cropRect W H roi).y + (cropRect W H roi).height ≤ (H : ℤ) := hyh
  refine ⟨Hx0, Hx1, Hy0, Hy1, Hw1, Hh1, Hxw, Hyh, ?_⟩
  intro row k hrow hk
  have hyrow : ((cropRect W H roi).y.toNat + row : ℤ) ≤ (H : ℤ) - 1 := by omega
  have h1 : ((cropRect W H roi).y.toNat + row : ℤ) * W ≤ ((H : ℤ) - 1) * W :=
    mul_le_mul_of_nonneg_right hyrow (by positivity)
  have h2 : (k : ℤ) < (cropRect W H roi).width * 4 := by omega
  have h3 : ((cropRect W H roi).x.toNat : ℤ) + (cropRect W H roi).width ≤ (W : ℤ) := by
    omega
  have hbound : (((cropRect W H roi).y.toNat + row : ℤ) * W +
      (cropRect W H roi).x.toNat) * 4 + k < (W : ℤ) * H * 4 := by nlinarith
  zify
  linarith [hbound]

/-- C8 witness: a partly out-of-range absolute ROI on a 10 by 10 grid is
clipped, fits, and its first read is in bounds. -/
theorem cropImageData_safe_witness :
    0 ≤ (cropRect 10 10 ⟨-5, 3/2, 100, 0, false⟩).x ∧
    (cropRect 10 10 ⟨-5, 3/2, 100, 0, false⟩).x +
      (cropRect 10 10 ⟨-5, 3/2, 100, 0, false⟩).width ≤ (10 : ℤ) ∧
    (((cropRect 10 10 ⟨-5, 3/2, 100, 0, false⟩).y.toNat + 0) * 10 +
      (cropRect 10 10 ⟨-5, 3/2, 100, 0, false⟩).x.toNat) * 4 + 0 < 10 * 10 * 4 :=
  have h := cropImageData_safe 10 10 ⟨-5, 3/2, 100, 0, false⟩ (by norm_num) (by norm_num)
  ⟨h.1, h.2.2.2.2.2.2.1,
    h.2.2.2.2.2.2.2.2 0 0 (by norm_num [cropRect, jsRound])
      (by norm_num [cropRect, jsRound])⟩

theorem clampByte_le (v : ℚ) : clampByte v ≤ 255 := by
  rw [clampByte]
  split_ifs with h1 h2
  · omega
  · exact le_refl 255
  · have h3 : ⌊v⌋ ≤ ⌊(255 : ℚ)⌋ := Int.floor_le_floor (not_lt.mp h2)
    rw [show ⌊(255 : ℚ)⌋ = 255 by norm_num] at h3
    omega

/-- C9 (amended): each color channel is remapped by
`k(pixel + 255·b − 128) + 128` with `k = 259(c+1)/(255(1−c))` on the
clamped parameters, the result clamped to `[0, 255]` and truncated (not
rounded to nearest) to an integer; the alpha channel is untouched.  The
`contrast < 1` bound keeps the gain finite. -/
theorem applyBrightnessContrast_spec (p : ℕ) (brightness contrast : ℚ)
    (_hc : contrast < 1) :
    applyBrightnessContrast p brightness contrast =
      clampByte (259 * (clampUnit contrast + 1) / (255 * (1 - clampUnit contrast)) *
        ((p : ℚ) + 255 * clampUnit brightness - 128) + 128) ∧
    applyBrightnessContrast p brightness contrast ≤ 255 ∧
    (∀ r g b a rest, applyBrightnessContrastData brightness contrast
        (r :: g :: b :: a :: rest) =
      applyBrightnessContrast r brightness contrast ::
        applyBrightnessContrast g brightness contrast ::
        applyBrightnessContrast b brightness contrast :: a ::
        applyBrightnessContrastData brightness contrast rest) := by
  refine ⟨?_, clampByte_le _, fun r g b a rest => rfl⟩
  rw [applyBrightnessContrast]
  ring_nf

/-- C9 witness: the amended remap equation and range at a concrete input. -/
theorem applyBrightnessContrast_spec_witness :
    applyBrightnessContrast 160 0 (1/2) =
      clampByte (259 * (clampUnit (1/2) + 1) / (255 * (1 - clampUnit (1/2))) *
        ((160 : ℚ) + 255 * clampUnit 0 - 128) + 128) ∧
    applyBrightnessContrast 160 0 (1/2) ≤ 255 :=
  ⟨(applyBrightnessContrast_spec 160 0 (1/2) (by norm_num)).1,
   (applyBrightnessContrast_spec 160 0 (1/2) (by norm_num)).2.1⟩

/-- C9 counterexample: the claim's formula with raw `b` and
nearest-rounding disagrees with the code, which scales `b` by 255 and
truncates: at `(p, b, c) = (0, 1, 0)` the code yields 255 but the claimed
formula yields 0, and at `(160, 0, 0)` the code truncates `160.50…` to 160
while nearest-rounding gives 161. -/
theorem applyBrightnessContrast_counterexample :
    applyBrightnessContrast 0 1 0 = 255 ∧ specBrightnessContrast 0 1 0 = 0 ∧
    applyBrightnessContrast 160 0 0 = 160 ∧ specBrightnessContrast 160 0 0 = 161 := by
  refine ⟨?_, ?_, ?_, ?_⟩ <;>
  · norm_num [applyBrightnessContrast, specBrightnessContrast, clampUnit, clampByte,
      jsRound]
    try simp

end QrReader
